import Mathlib

/-!
Shallow embedding of the lmctfy cAdvisor in-process manager core:
`cadvisor/manager/container.go` (per-container collector: bounded stats
history, spec/subcontainer refresh, snapshot copy) and the manager file
(tracked-container map, `GetContainerInfo` with the memory-limit
default-resolution rule, container diffing and reconciliation).

Modelling conventions:
- The external collaborator (`container.ContainerHandler`) is out of scope;
  each call into it is modelled by an explicit result parameter
  (`StatsResult`, `SummaryResult`, `Option ContainerSpec`, `Option (List String)`).
- Go's `container/list` holding the stats history is modelled as a Lean
  `List`, front (oldest) first; `PushBack` appends, `Remove(Front())`
  drops the head.  Calling `Remove` on a `nil` element (empty list) is a
  Go nil-pointer dereference: it is modelled as an explicit `panicked`
  outcome.
- Go pointers to `info.ContainerSpec` are modelled by addresses (`Nat`)
  into an explicit heap (`List ContainerSpec`); `nil` is `Option.none`.
  The `Memory *MemorySpec` indirection inside a spec is collapsed into the
  spec cell, since in this code a `MemorySpec` is only ever reached through
  its enclosing spec pointer.  `info.ContainerSpec` and `info.MemorySpec`
  live outside the two embedded files; their shapes (a spec holds a
  nil-able memory section with a `Limit` counter) are reconstructed from
  how the manager dereferences them (`ret.Spec.Memory != nil`,
  `ret.Spec.Memory.Limit`).
- Wall-clock timestamps and opaque metric/summary payloads are `Nat`.
- Go's `map[string]*containerData` is an association list with unique
  keys; map insertion replaces, `delete` removes the key.
-/

namespace Lmctfy

/-- Model of `info.MemorySpec` (reconstructed shape): the memory section of a
container spec; only the `Limit` field is dereferenced by the embedded
code. `Limit == 0` is the sentinel for "no limit set". -/
structure MemorySpec where
  limit : Nat
deriving DecidableEq, Repr

/-- Model of `info.ContainerSpec` (reconstructed shape): `Memory` is a nil-able
pointer, collapsed here into an optional value inside the spec cell. -/
structure ContainerSpec where
  memory : Option MemorySpec
deriving DecidableEq, Repr

/-- Heap of `info.ContainerSpec` cells; a `*info.ContainerSpec` is an index
into this list, `nil` is modelled as `Option.none` at the use site. -/
abbrev SpecHeap := List ContainerSpec

/-- Read through a `*info.ContainerSpec` (dangling addresses yield `none`;
they never arise: every stored address is produced by `specAlloc`). -/
def specRead (h : SpecHeap) (a : Nat) : Option ContainerSpec :=
  h[a]?

/-- Write through a `*info.ContainerSpec`. -/
def specWrite (h : SpecHeap) (a : Nat) (s : ContainerSpec) : SpecHeap :=
  h.set a s

/-- Allocate a fresh `info.ContainerSpec` cell (the handler's `GetSpec`
returns a freshly built spec object). -/
def specAlloc (h : SpecHeap) (s : ContainerSpec) : SpecHeap × Nat :=
  (h ++ [s], h.length)

/-- One element of the `containerStat` history list:
`{Timestamp time.Time, Data *info.ContainerStats}` with the timestamp as a
`Nat` tick and the stats payload as an opaque `Nat` identifier. -/
structure ContainerStat where
  timestamp : Nat
  data : Nat
deriving DecidableEq, Repr

/-- The collector-owned mutable state `containerData.info`
(`containerInfo` in container.go): name, subcontainer names, spec pointer,
stats history (oldest first) and the latest summary (opaque payload,
`none` = nil). The handler, mutex and stop channel are modelled elsewhere
(handler calls are oracle parameters; the embedding is sequential). -/
structure ContainerData where
  name : String
  subcontainers : List String
  spec : Option Nat
  stats : List ContainerStat
  statsSummary : Option Nat
deriving DecidableEq, Repr

/-- Model of `NewContainerData`: fresh state with an empty stats list, nil spec,
nil summary (handler creation success is an oracle at the call site). -/
def NewContainerData (name : String) : ContainerData :=
  { name := name, subcontainers := [], spec := none, stats := [], statsSummary := none }

/-- Outcome of the handler's `GetStats()` call: an error, a `nil` stats
pointer with no error ("nothing new this tick"), or a fresh sample. -/
inductive StatsResult where
  | err
  | absent
  | sample (data : Nat)
deriving DecidableEq, Repr

/-- Outcome of the handler's `StatsSummary()` call. -/
inductive SummaryResult where
  | err
  | ok (summary : Nat)
deriving DecidableEq, Repr

/-- Result of `containerData.updateStats`: a Go runtime panic (the
`Stats.Remove(Stats.Front())` on an empty list dereferences nil), an error
return (state unchanged: both error returns happen before any mutation),
or a normal return with the updated state. -/
inductive UpdateResult where
  | panicked
  | error (c : ContainerData)
  | ok (c : ContainerData)
deriving DecidableEq, Repr

/-- Model of `containerData.updateStats`, with the two handler calls supplied as
oracle results and `time.Now()` supplied as `now`; `histMax` is the
`historyDuration` flag value. -/
def updateStats (histMax : Nat) (statsRes : StatsResult) (sumRes : SummaryResult)
    (now : Nat) (c : ContainerData) : UpdateResult :=
  match statsRes with
  | .err => .error c
  | .absent => .ok c
  | .sample d =>
    match sumRes with
    | .err => .error c
    | .ok summary =>
      let afterEvict : Option (List ContainerStat) :=
        if c.stats.length ≥ histMax then
          match c.stats with
          | [] => none
          | _ :: rest => some rest
        else
          some c.stats
      match afterEvict with
      | none => .panicked
      | some stats1 =>
        .ok { c with stats := stats1 ++ [{ timestamp := now, data := d }],
                     statsSummary := some summary }

/-- One housekeeping tick input for a run of sample-yielding ticks:
timestamp, stats payload and summary payload reported by the handler. -/
structure TickInput where
  now : Nat
  data : Nat
  summary : Nat
deriving DecidableEq, Repr

/-- A run of housekeeping ticks in which the handler yields a sample every
tick; `none` when some tick panicked or errored (a sample-yielding tick
with a successful summary never errors). -/
def runSampleTicks (histMax : Nat) (ticks : List TickInput) (c : ContainerData) :
    Option ContainerData :=
  match ticks with
  | [] => some c
  | t :: rest =>
    match updateStats histMax (.sample t.data) (.ok t.summary) t.now c with
    | .ok c' => runSampleTicks histMax rest c'
    | _ => none

/-- The `ContainerStat` a sample-yielding tick pushes onto the history. -/
def TickInput.stat (t : TickInput) : ContainerStat :=
  { timestamp := t.now, data := t.data }

/-- Decides whether a sample-yielding tick returns normally with the
history bound `len ≤ histMax` intact (the bound claimed invariant). -/
def sampleTickKeepsBound (histMax now d summary : Nat) (c : ContainerData) : Bool :=
  match updateStats histMax (.sample d) (.ok summary) now c with
  | .ok c' => c'.stats.length ≤ histMax
  | _ => false

/-- Decides whether a run of sample-yielding ticks completes with final
history length `min N histMax` (the claimed bounded-history law). -/
def runLengthLaw (histMax : Nat) (ticks : List TickInput) (c : ContainerData) : Bool :=
  match runSampleTicks histMax ticks c with
  | some c' => c'.stats.length = min ticks.length histMax
  | none => false

end Lmctfy

namespace Lmctfy

/-- Model of `containerData.updateSpec`: `GetSpec` result as oracle (`none` =
error). On success the freshly returned spec object is allocated and the
stored spec pointer is replaced; the error return mutates nothing. -/
def updateSpec (specRes : Option ContainerSpec) (h : SpecHeap) (c : ContainerData) :
    Except Unit (SpecHeap × ContainerData) :=
  match specRes with
  | none => .error ()
  | some s =>
    let (h', a) := specAlloc h s
    .ok (h', { c with spec := some a })

/-- Model of `containerData.updateSubcontainers`: `ListContainers(LIST_SELF)` result
as oracle (`none` = error). -/
def updateSubcontainers (subcRes : Option (List String)) (c : ContainerData) :
    Except Unit ContainerData :=
  match subcRes with
  | none => .error ()
  | some subs => .ok { c with subcontainers := subs }

/-- The struct copy `ret := c.info` that `GetInfo` hands back: a *shallow*
copy — the `spec` field is the same heap address as the stored one, and
`stats`/`subcontainers` carry the same element payloads. -/
structure ShallowInfo where
  name : String
  subcontainers : List String
  spec : Option Nat
  stats : List ContainerStat
  statsSummary : Option Nat
deriving DecidableEq, Repr

/-- Result of `containerData.GetInfo`: error (with the heap and the
collector's stored state as already mutated by the partial refresh), or
success carrying the mutated state plus the shallow copy returned. -/
inductive InfoResult where
  | error (h : SpecHeap) (c : ContainerData)
  | ok (h : SpecHeap) (c : ContainerData) (ret : ShallowInfo)
deriving DecidableEq, Repr

/-- Model of `containerData.GetInfo`: refresh the spec, then the subcontainer list
(each may fail), then return the shallow struct copy of `c.info`. The
stored state visible through the map pointer is mutated in place; both it
and the copy are reported. -/
def GetInfo (specRes : Option ContainerSpec) (subcRes : Option (List String))
    (h : SpecHeap) (c : ContainerData) : InfoResult :=
  match updateSpec specRes h c with
  | .error _ => .error h c
  | .ok (h1, c1) =>
    match updateSubcontainers subcRes c1 with
    | .error _ => .error h1 c1
    | .ok c2 =>
      .ok h1 c2 { name := c2.name, subcontainers := c2.subcontainers,
                  spec := c2.spec, stats := c2.stats, statsSummary := c2.statsSummary }

/-- Association-list lookup for the manager's `map[string]*containerData`. -/
def lookupC (l : List (String × ContainerData)) (k : String) : Option ContainerData :=
  match l with
  | [] => none
  | (k', v) :: t => if k' = k then some v else lookupC t k

/-- Map insertion (`m.containers[name] = cont`): replaces an existing
binding, otherwise appends. -/
def insertC (l : List (String × ContainerData)) (k : String) (v : ContainerData) :
    List (String × ContainerData) :=
  match l with
  | [] => [(k, v)]
  | (k', v') :: t => if k' = k then (k, v) :: t else (k', v') :: insertC t k v

/-- Map deletion (`delete(m.containers, name)`): removes every binding of
the key (a Go map holds at most one). -/
def eraseC (l : List (String × ContainerData)) (k : String) :
    List (String × ContainerData) :=
  match l with
  | [] => []
  | (k', v') :: t => if k' = k then eraseC t k else (k', v') :: eraseC t k

/-- The tracked container names (the key set of the map). -/
def keysC : List (String × ContainerData) → List String
  | [] => []
  | (k, _) :: t => k :: keysC t

/-- The `manager` struct: tracked map, cached machine memory capacity
(`machineInfo.MemoryCapacity`), and the spec heap standing for process
memory holding `info.ContainerSpec` objects. -/
structure ManagerState where
  containers : List (String × ContainerData)
  machineMemoryCapacity : Nat
  specHeap : SpecHeap
deriving DecidableEq, Repr

/-- The error kinds `manager.GetContainerInfo` can produce: the distinct
`unknown container` not-found error, or a propagated refresh failure. -/
inductive MgrError where
  | notFound
  | refreshFailed
deriving DecidableEq, Repr

/-- The `info.ContainerInfo` value built for the caller: fresh struct, but
`Spec` is the copied pointer (heap address) and `Stats` is a fresh slice of
the stored stats payloads front-to-back. -/
structure RetContainerInfo where
  name : String
  subcontainers : List String
  spec : Option Nat
  statsSummary : Option Nat
  stats : List Nat
deriving DecidableEq, Repr

/-- Result of `manager.GetContainerInfo`: an error (with the possibly
mutated manager state and the error kind), a snapshot, or a Go runtime
panic (nil/dangling spec dereference in the default-resolution rule —
unreachable after a successful refresh). -/
inductive QueryResult where
  | panicked
  | error (m : ManagerState) (e : MgrError)
  | ok (m : ManagerState) (ret : RetContainerInfo)
deriving DecidableEq, Repr

/-- Model of `manager.GetContainerInfo`: look up the container; delegate to
`GetInfo` (both refresh oracles supplied); copy the fields into a fresh
`info.ContainerInfo` whose `Spec` is the same pointer; then apply the
memory-limit default-resolution rule, which writes `Spec.Memory.Limit`
through that shared pointer. -/
def GetContainerInfo (specRes : Option ContainerSpec) (subcRes : Option (List String))
    (m : ManagerState) (name : String) : QueryResult :=
  match lookupC m.containers name with
  | none => .error m .notFound
  | some cont =>
    match GetInfo specRes subcRes m.specHeap cont with
    | .error h1 c1 =>
      .error { m with specHeap := h1, containers := insertC m.containers name c1 }
        .refreshFailed
    | .ok h1 c1 cinfo =>
      let m1 : ManagerState :=
        { m with specHeap := h1, containers := insertC m.containers name c1 }
      let ret : RetContainerInfo :=
        { name := cinfo.name, subcontainers := cinfo.subcontainers,
          spec := cinfo.spec, statsSummary := cinfo.statsSummary,
          stats := cinfo.stats.map ContainerStat.data }
      match cinfo.spec with
      | none => .panicked
      | some a =>
        match specRead m1.specHeap a with
        | none => .panicked
        | some s =>
          match s.memory with
          | none => .ok m1 ret
          | some mem =>
            if mem.limit = 0 then
              let s' : ContainerSpec :=
                { s with memory := some { mem with limit := m.machineMemoryCapacity } }
              .ok { m1 with specHeap := specWrite m1.specHeap a s' } ret
            else
              .ok m1 ret

/-- The spec value currently stored by a tracked collector, read through
its stored spec pointer. -/
def storedSpecValue (m : ManagerState) (name : String) : Option ContainerSpec :=
  match lookupC m.containers name with
  | none => none
  | some c =>
    match c.spec with
    | none => none
    | some a => specRead m.specHeap a

/-- The stored spec pointer (heap address) of a tracked collector. -/
def storedSpecAddr (m : ManagerState) (name : String) : Option Nat :=
  match lookupC m.containers name with
  | none => none
  | some c => c.spec

/-- The error kind of a query result, if any. -/
def QueryResult.errKind : QueryResult → Option MgrError
  | .error _ e => some e
  | _ => none

/-- Whether a query result carries a snapshot. -/
def QueryResult.hasSnapshot : QueryResult → Bool
  | .ok _ _ => true
  | _ => false

/-- The effective memory limit visible in a returned snapshot: the `Limit`
read through the snapshot's spec pointer against the post-query heap. -/
def retMemoryLimit : QueryResult → Option Nat
  | .ok m ret =>
    match ret.spec with
    | none => none
    | some a =>
      match specRead m.specHeap a with
      | none => none
      | some s => s.memory.map MemorySpec.limit
  | _ => none

/-- The post-query manager state of a successful query. -/
def QueryResult.okState : QueryResult → Option ManagerState
  | .ok m _ => some m
  | _ => none

/-- The snapshot of a successful query. -/
def QueryResult.okRet : QueryResult → Option RetContainerInfo
  | .ok _ r => some r
  | _ => none

/-- The collector state after a successful spec and subcontainer refresh
whose fresh spec was allocated at address `a`. -/
def refreshedData (cont : ContainerData) (a : Nat) (subs : List String) : ContainerData :=
  { cont with spec := some a, subcontainers := subs }

/-- The heap after the default-resolution rule of a successful query on
the refreshed spec `s` at address `a`: when `s` has a memory section with
limit 0, the machine capacity is written through the shared pointer;
otherwise the heap is untouched. -/
def resolvedHeap (h1 : SpecHeap) (a : Nat) (s : ContainerSpec) (cap : Nat) : SpecHeap :=
  match s.memory with
  | none => h1
  | some mem =>
    if mem.limit = 0 then
      specWrite h1 a { s with memory := some { mem with limit := cap } }
    else h1

/-- Result of a manager map-mutating operation (`createContainer`,
`destroyContainer`, `detectContainers`): a propagated Go panic, an error
return carrying the (possibly already mutated) manager state, or success. -/
inductive MResult where
  | panicked
  | error (m : ManagerState)
  | ok (m : ManagerState)
deriving DecidableEq, Repr

/-- Collaborator responses involved in one `createContainer` call: whether
`container.NewContainerHandler` succeeds, and the handler responses for
the forced first housekeeping tick run by `Start()`. -/
structure CreateOracle where
  handlerOk : Bool
  tickStats : StatsResult
  tickSummary : SummaryResult
  tickTime : Nat
deriving DecidableEq, Repr

/-- Model of `manager.createContainer`: build fresh per-container state (fails iff
the handler construction fails, before the map is touched), insert it into
the map under the write lock, then `Start()` — which forces one
housekeeping tick mutating the mapped state in place and always returns
nil (tick errors are only logged, a tick panic propagates). -/
def createContainer (histMax : Nat) (o : CreateOracle) (m : ManagerState)
    (name : String) : MResult :=
  if o.handlerOk then
    match updateStats histMax o.tickStats o.tickSummary o.tickTime (NewContainerData name) with
    | .panicked => .panicked
    | .error c' => .ok { m with containers := insertC m.containers name c' }
    | .ok c' => .ok { m with containers := insertC m.containers name c' }
  else .error m

/-- The per-container state sitting in the map right after a successful
`createContainer`: the fresh state as mutated by the forced first tick. -/
def tickedNew (histMax : Nat) (o : CreateOracle) (name : String) : ContainerData :=
  match updateStats histMax o.tickStats o.tickSummary o.tickTime (NewContainerData name) with
  | .panicked => NewContainerData name
  | .error c' => c'
  | .ok c' => c'

/-- Decides whether a `createContainer` call with this oracle returns
successfully: the handler construction succeeds and the forced first tick
does not panic (a sample-yielding first tick with a successful summary
panics exactly when the retained-sample capacity is 0). -/
def createOkB (histMax : Nat) (o : CreateOracle) : Bool :=
  o.handlerOk &&
    (match o.tickStats, o.tickSummary with
     | .sample _, .ok _ => decide (1 ≤ histMax)
     | _, _ => true)

/-- Model of `manager.destroyContainer`: under the write lock, look up the name
(error — container expected to exist — if absent, before any mutation),
call `Stop()` (sends on the buffered stop channel, always returns nil),
then delete the map entry. -/
def destroyContainer (m : ManagerState) (name : String) : MResult :=
  match lookupC m.containers name with
  | none => .error m
  | some _ => .ok { m with containers := eraseC m.containers name }

/-- The creation loop of `manager.detectContainers`: create each added
name in order, stopping at the first failure. -/
def createAll (histMax : Nat) (co : String → CreateOracle) (names : List String)
    (m : ManagerState) : MResult :=
  match names with
  | [] => .ok m
  | n :: rest =>
    match createContainer histMax (co n) m n with
    | .panicked => .panicked
    | .error m' => .error m'
    | .ok m' => createAll histMax co rest m'

/-- The destruction loop of `manager.detectContainers`: destroy each
removed name in order, stopping at the first failure. -/
def destroyAll (names : List String) (m : ManagerState) : MResult :=
  match names with
  | [] => .ok m
  | n :: rest =>
    match destroyContainer m n with
    | .panicked => .panicked
    | .error m' => .error m'
    | .ok m' => destroyAll rest m'

/-- Model of `manager.getContainersDiff`: look up the root collector (error if the
root is untracked), ask its handler for the recursive container list
(oracle `listRes`, `none` = error), append the root's own name, then
compute `added` (live names not tracked, in listing order) and `removed`
(tracked names no longer live). -/
def getContainersDiff (listRes : Option (List String)) (m : ManagerState) :
    Except Unit (List String × List String) :=
  match lookupC m.containers "/" with
  | none => .error ()
  | some _ =>
    match listRes with
    | none => .error ()
    | some live0 =>
      let allContainers := live0 ++ ["/"]
      let added := allContainers.filter (fun n => (lookupC m.containers n).isNone)
      let removed := (keysC m.containers).filter (fun n => decide (¬ n ∈ allContainers))
      .ok (added, removed)

/-- Model of `manager.detectContainers`: one reconciliation pass — compute the
diff, create every added name, then destroy every removed name, aborting
at the first failing step with the mutations so far kept. -/
def detectContainers (histMax : Nat) (listRes : Option (List String))
    (co : String → CreateOracle) (m : ManagerState) : MResult :=
  match getContainersDiff listRes m with
  | .error _ => .error m
  | .ok (added, removed) =>
    match createAll histMax co added m with
    | .panicked => .panicked
    | .error m' => .error m'
    | .ok m' => destroyAll removed m'

/-- A manager tracking only the root container. -/
def rootOnlyManager : ManagerState :=
  { containers := [("/", NewContainerData "/")],
    machineMemoryCapacity := 1024, specHeap := [] }

/-- A manager tracking the root and one container `/a` with machine
memory capacity 2048. -/
def witnessManager : ManagerState :=
  { containers := [("/", NewContainerData "/"), ("/a", NewContainerData "/a")],
    machineMemoryCapacity := 2048, specHeap := [] }

/-- A manager tracking the root and one container `/b` (used to exercise
the diff on a live set that drops `/b` and adds `/a`). -/
def diffManager : ManagerState :=
  { containers := [("/", NewContainerData "/"), ("/b", NewContainerData "/b")],
    machineMemoryCapacity := 0, specHeap := [] }

/-- A manager whose association list holds a duplicated key — a state
outside the Go-map representation invariant, used to exercise the
destroy-failure abort path of a pass. -/
def dupKeyManager : ManagerState :=
  { containers := [("/", NewContainerData "/"), ("/x", NewContainerData "/x"),
                   ("/x", NewContainerData "/x")],
    machineMemoryCapacity := 0, specHeap := [] }

/-- State of `dupKeyManager` after the first (successful) destroy of `/x` removed
the key entirely. -/
def erasedDupManager : ManagerState :=
  { containers := [("/", NewContainerData "/")],
    machineMemoryCapacity := 0, specHeap := [] }

/-- An oracle under which every creation succeeds (first tick reports no
sample). -/
def okOracle : String → CreateOracle :=
  fun _ => { handlerOk := true, tickStats := .absent, tickSummary := .ok 0, tickTime := 0 }

/-- An oracle under which creating exactly `bad` fails at handler
construction and every other creation succeeds. -/
def failOracleFor (bad : String) : String → CreateOracle :=
  fun n => { handlerOk := decide (n ≠ bad), tickStats := .absent,
             tickSummary := .ok 0, tickTime := 0 }

/-- A fresh spec whose memory limit is the unset sentinel 0. -/
def limit0Spec : ContainerSpec := { memory := some { limit := 0 } }

/-- A fresh spec whose memory limit is the explicit value 5. -/
def limit5Spec : ContainerSpec := { memory := some { limit := 5 } }

/-- The failing input of the default-resolution aliasing bug: one tracked
container `/a`, machine capacity 1024, empty heap. -/
def c1Manager : ManagerState :=
  { containers := [("/a", NewContainerData "/a")],
    machineMemoryCapacity := 1024, specHeap := [] }

/-- The query at the failing input: refresh returns a spec with memory
limit 0 and an empty subcontainer list. -/
def c1Query : QueryResult :=
  GetContainerInfo (some limit0Spec) (some []) c1Manager "/a"

/-- Concrete collector state with a full history of three samples, used to
instantiate the capacity-eviction theorems. -/
def fullHistoryState : ContainerData :=
  { name := "/a", subcontainers := [], spec := none,
    stats := [{ timestamp := 1, data := 1 }, { timestamp := 2, data := 2 },
              { timestamp := 3, data := 3 }],
    statsSummary := none }

/-- Four sample-yielding ticks at times 1,2,3,4 (the retained-sample-count
scenario from the design's testable properties). -/
def fourTicks : List TickInput :=
  [{ now := 1, data := 1, summary := 1 }, { now := 2, data := 2, summary := 2 },
   { now := 3, data := 3, summary := 3 }, { now := 4, data := 4, summary := 4 }]

end Lmctfy

namespace Lmctfy

theorem length_pos_exists_cons {α : Type} {l : List α} (h : 0 < l.length) :
    ∃ x t, l = x :: t := by
  cases l with
  | nil => simp at h
  | cons x t => exact ⟨x, t, rfl⟩

end Lmctfy

namespace Lmctfy

/-- Claim C5: a tick on which the collaborator reports "no sample available"
(`GetStats` returns nil stats and no error) is a no-op: `updateStats`
returns normally with the collector state — history, contents and summary —
exactly unchanged, whatever the summary oracle, time and capacity. -/
theorem spec_C5_absent_tick_noop (histMax : Nat) (sumRes : SummaryResult)
    (now : Nat) (c : ContainerData) :
    updateStats histMax .absent sumRes now c = .ok c := rfl

/-- A sample-yielding tick on a history at or above capacity (and
non-empty) evicts the front element and appends the new sample. -/
theorem updateStats_sample_full (histMax now d summary : Nat) (c : ContainerData)
    (x : ContainerStat) (t : List ContainerStat) (hx : c.stats = x :: t)
    (hge : c.stats.length ≥ histMax) :
    updateStats histMax (.sample d) (.ok summary) now c =
      .ok { c with stats := t ++ [{ timestamp := now, data := d }],
                   statsSummary := some summary } := by
  rw [hx] at hge
  have hge' : histMax ≤ t.length + 1 := by simpa using hge
  simp [updateStats, hx, hge']

/-- A sample-yielding tick on a history strictly below capacity appends
the new sample, evicting nothing. -/
theorem updateStats_sample_notfull (histMax now d summary : Nat) (c : ContainerData)
    (hlt : c.stats.length < histMax) :
    updateStats histMax (.sample d) (.ok summary) now c =
      .ok { c with stats := c.stats ++ [{ timestamp := now, data := d }],
                   statsSummary := some summary } := by
  have hnot : ¬ c.stats.length ≥ histMax := Nat.not_le.mpr hlt
  simp [updateStats, hnot]

/-- Claim C3, amended (the retained-sample capacity is at least 1; at capacity
0 the tick is a Go nil-pointer panic, see the counterexample). For every
history with `len ≤ max` and every tick that yields a sample, the tick
appends the new sample at the newest end, first removing exactly the
oldest (front) sample iff the history was at capacity, and `len ≤ max`
holds again afterward. -/
theorem spec_C3_fifo_tick (histMax now d summary : Nat) (c : ContainerData)
    (hmax : 1 ≤ histMax) (hlen : c.stats.length ≤ histMax) :
    ∃ c', updateStats histMax (.sample d) (.ok summary) now c = .ok c' ∧
      c'.stats = (if c.stats.length = histMax then c.stats.drop 1 else c.stats)
        ++ [{ timestamp := now, data := d }] ∧
      c'.stats.length ≤ histMax := by
  by_cases hfull : c.stats.length = histMax
  · have hpos : 0 < c.stats.length := by omega
    obtain ⟨x, t, hx⟩ := length_pos_exists_cons hpos
    have hcond : t.length + 1 = histMax := by
      rw [hx] at hfull; simpa using hfull
    refine ⟨_, updateStats_sample_full histMax now d summary c x t hx (by omega), ?_, ?_⟩
    · simp [hx, hcond]
    · simp
      omega
  · have hlt : c.stats.length < histMax := by omega
    refine ⟨_, updateStats_sample_notfull histMax now d summary c hlt, ?_, ?_⟩
    · simp [hfull]
    · simp
      omega

/-- Claim C3 counterexample: at retained-sample capacity 0 (the flag value
`history_duration = 0`) with an empty history, a sample-yielding tick
executes `Stats.Remove(Stats.Front())` on an empty list — a nil-pointer
dereference — so no sample is appended and the claimed bound-preserving
append does not happen. -/
theorem spec_C3_counterexample :
    updateStats 0 (.sample 5) (.ok 7) 1 (NewContainerData "/a") = .panicked ∧
    sampleTickKeepsBound 0 1 5 7 (NewContainerData "/a") = false := ⟨rfl, rfl⟩

/-- Witness for the amended C3: a concrete full history of 3 samples at
capacity 3 evicts exactly the oldest and appends the new sample. -/
theorem spec_C3_witness :
    ∃ c', updateStats 3 (.sample 4) (.ok 9) 4 fullHistoryState = .ok c' ∧
      c'.stats = (if fullHistoryState.stats.length = 3
          then fullHistoryState.stats.drop 1 else fullHistoryState.stats)
        ++ [{ timestamp := 4, data := 4 }] ∧
      c'.stats.length ≤ 3 :=
  spec_C3_fifo_tick 3 4 4 9 fullHistoryState (by decide) (by decide)

/-- Running a sequence of sample-yielding ticks from any state within the
bound keeps exactly the `histMax` most recent samples: the final history is
the concatenation of the old history and all pushed samples, with the
overflow dropped from the front. Requires `1 ≤ histMax` (capacity 0
panics). -/
theorem drop_shift {α : Type} (x y : α) (xs zs : List α) (i j : Nat)
    (hi : i = zs.length) (hj : j = zs.length + 1) :
    List.drop i ((xs ++ [y]) ++ zs) = List.drop j ((x :: xs) ++ (y :: zs)) := by
  subst hi
  subst hj
  rw [List.cons_append, List.drop_succ_cons, List.append_assoc, List.singleton_append]

theorem runSampleTicks_spec (histMax : Nat) (hmax : 1 ≤ histMax) :
    ∀ (ticks : List TickInput) (c : ContainerData), c.stats.length ≤ histMax →
    ∃ c', runSampleTicks histMax ticks c = some c' ∧
      c'.stats = (c.stats ++ ticks.map TickInput.stat).drop
        (c.stats.length + ticks.length - histMax) := by
  intro ticks
  induction ticks with
  | nil =>
    intro c hc
    refine ⟨c, rfl, ?_⟩
    have h0 : c.stats.length - histMax = 0 := by omega
    simp [h0]
  | cons t rest ih =>
    intro c hc
    by_cases hfull : c.stats.length = histMax
    · have hpos : 0 < c.stats.length := by omega
      obtain ⟨x, xs, hx⟩ := length_pos_exists_cons hpos
      have hxs : xs.length + 1 = histMax := by
        rw [hx] at hfull; simpa using hfull
      have hstep : updateStats histMax (.sample t.data) (.ok t.summary) t.now c
          = .ok { c with stats := xs ++ [t.stat], statsSummary := some t.summary } := by
        rw [updateStats_sample_full histMax t.now t.data t.summary c x xs hx (by omega)]
        rfl
      have hc1 : (xs ++ [t.stat]).length ≤ histMax := by
        simp; omega
      obtain ⟨c', hrun, hstats⟩ :=
        ih { c with stats := xs ++ [t.stat], statsSummary := some t.summary } hc1
      refine ⟨c', ?_, ?_⟩
      · simpa [runSampleTicks, hstep] using hrun
      · rw [hstats, hx]
        dsimp only
        have hA : (xs ++ [t.stat]).length + rest.length - histMax
            = (rest.map TickInput.stat).length := by
          simp; omega
        have hB : (x :: xs).length + (t :: rest).length - histMax
            = (rest.map TickInput.stat).length + 1 := by
          simp; omega
        rw [hA, hB, List.map_cons]
        exact drop_shift x t.stat xs (rest.map TickInput.stat) _ _ rfl rfl
    · have hlt : c.stats.length < histMax := by omega
      have hstep : updateStats histMax (.sample t.data) (.ok t.summary) t.now c
          = .ok { c with stats := c.stats ++ [t.stat], statsSummary := some t.summary } := by
        rw [updateStats_sample_notfull histMax t.now t.data t.summary c hlt]
        rfl
      have hc1 : (c.stats ++ [t.stat]).length ≤ histMax := by
        simp; omega
      obtain ⟨c', hrun, hstats⟩ :=
        ih { c with stats := c.stats ++ [t.stat], statsSummary := some t.summary } hc1
      refine ⟨c', ?_, ?_⟩
      · simpa [runSampleTicks, hstep] using hrun
      · rw [hstats]
        dsimp only
        have hidx : (c.stats ++ [t.stat]).length + rest.length - histMax
            = c.stats.length + (t :: rest).length - histMax := by
          simp; omega
        rw [hidx, List.map_cons, List.append_assoc, List.singleton_append]

/-- Claim C4, amended (the retained-sample capacity is at least 1; at capacity
0 the first sample-yielding tick panics, see the counterexample). From an
empty history, after N sample-yielding ticks the history has length
`min N max` and consists of exactly the most recent samples in
chronological order — the pushed samples with the overflow dropped from
the front. -/
theorem spec_C4_bounded_history (histMax : Nat) (ticks : List TickInput)
    (c : ContainerData) (hmax : 1 ≤ histMax) (hc : c.stats = []) :
    ∃ c', runSampleTicks histMax ticks c = some c' ∧
      c'.stats = (ticks.map TickInput.stat).drop (ticks.length - histMax) ∧
      c'.stats.length = min ticks.length histMax := by
  obtain ⟨c', hrun, hstats⟩ :=
    runSampleTicks_spec histMax hmax ticks c (by simp [hc])
  refine ⟨c', hrun, ?_, ?_⟩
  · rw [hstats]
    simp [hc]
  · rw [hstats]
    simp [hc]
    omega

/-- Claim C4 counterexample: at retained-sample capacity 0, a single
sample-yielding tick from an empty history panics (nil-pointer dereference
in the front eviction), so there is no post-run state whose history length
is `min 1 0`. -/
theorem spec_C4_counterexample :
    runSampleTicks 0 [{ now := 1, data := 5, summary := 7 }] (NewContainerData "/a") = none ∧
    runLengthLaw 0 [{ now := 1, data := 5, summary := 7 }] (NewContainerData "/a") = false :=
  ⟨rfl, rfl⟩

/-- Witness for the amended C4, which is exactly the design's scenario:
capacity 3, samples on ticks 1,2,3,4 — after tick 4 the history is exactly
the samples of ticks 2,3,4. -/
theorem spec_C4_witness :
    ∃ c', runSampleTicks 3 fourTicks (NewContainerData "/a") = some c' ∧
      c'.stats = (fourTicks.map TickInput.stat).drop (fourTicks.length - 3) ∧
      c'.stats.length = min fourTicks.length 3 :=
  spec_C4_bounded_history 3 fourTicks (NewContainerData "/a") (by decide) rfl

end Lmctfy

namespace Lmctfy

theorem getElem?_append_length {α : Type} (l : List α) (x : α) :
    (l ++ [x])[l.length]? = some x := by
  induction l with
  | nil => rfl
  | cons y t ih => simpa using ih

theorem getElem?_set_of_lt {α : Type} (l : List α) (i : Nat) (v : α)
    (h : i < l.length) : (l.set i v)[i]? = some v := by
  induction l generalizing i with
  | nil => simp at h
  | cons y t ih =>
    cases i with
    | zero => simp
    | succ n => simpa using ih n (by simpa using h)

/-- Claim C10: a failing `GetInfo` is not state-preserving: when the spec
refresh succeeds (returning fresh spec `s`) and the subcontainer refresh
then fails, `GetInfo` returns an error, yet the stored spec pointer has
already been replaced by the freshly allocated one holding `s`; whenever
the fresh pointer differs from the old one, the stored state on the error
path differs from the state before the call. -/
theorem spec_C10_failed_getinfo_mutates (s : ContainerSpec) (h : SpecHeap)
    (c : ContainerData) :
    GetInfo (some s) none h c =
      .error (h ++ [s]) { c with spec := some h.length } ∧
    specRead (h ++ [s]) h.length = some s ∧
    (c.spec ≠ some h.length → { c with spec := some h.length } ≠ c) := by
  refine ⟨?_, ?_, ?_⟩
  · simp [GetInfo, updateSpec, updateSubcontainers, specAlloc]
  · simpa [specRead] using getElem?_append_length h s
  · intro hne heq
    exact hne (congrArg ContainerData.spec heq).symm

/-- Witness for C10 at a concrete input: fresh container `/a`, empty heap,
spec refresh returns the limit-0 spec, subcontainer refresh fails. -/
theorem spec_C10_witness :
    GetInfo (some limit0Spec) none [] (NewContainerData "/a") =
      .error [limit0Spec] { NewContainerData "/a" with spec := some 0 } ∧
    specRead [limit0Spec] 0 = some limit0Spec ∧
    { NewContainerData "/a" with spec := some 0 } ≠ NewContainerData "/a" :=
  ⟨(spec_C10_failed_getinfo_mutates limit0Spec [] (NewContainerData "/a")).1,
   (spec_C10_failed_getinfo_mutates limit0Spec [] (NewContainerData "/a")).2.1,
   (spec_C10_failed_getinfo_mutates limit0Spec [] (NewContainerData "/a")).2.2 (by decide)⟩

/-- Shape of a fully successful query: both refreshes succeed, the stored
collector is replaced by the refreshed one, the snapshot shares the fresh
spec address, and the heap has had the default-resolution rule applied. -/
theorem GetContainerInfo_ok (s : ContainerSpec) (subs : List String)
    (m : ManagerState) (nm : String) (cont : ContainerData)
    (hlook : lookupC m.containers nm = some cont) :
    GetContainerInfo (some s) (some subs) m nm =
      .ok { m with
              specHeap := resolvedHeap (m.specHeap ++ [s]) m.specHeap.length s
                m.machineMemoryCapacity,
              containers := insertC m.containers nm
                (refreshedData cont m.specHeap.length subs) }
          { name := cont.name, subcontainers := subs, spec := some m.specHeap.length,
            statsSummary := cont.statsSummary,
            stats := cont.stats.map ContainerStat.data } := by
  have hread : specRead (m.specHeap ++ [s]) m.specHeap.length = some s := by
    simpa [specRead] using getElem?_append_length m.specHeap s
  cases hs : s.memory with
  | none =>
    simp [GetContainerInfo, hlook, GetInfo, updateSpec, updateSubcontainers, specAlloc,
      hread, hs, resolvedHeap, refreshedData]
  | some mem =>
    by_cases h0 : mem.limit = 0
    · simp [GetContainerInfo, hlook, GetInfo, updateSpec, updateSubcontainers, specAlloc,
        hread, hs, h0, resolvedHeap, refreshedData]
    · simp [GetContainerInfo, hlook, GetInfo, updateSpec, updateSubcontainers, specAlloc,
        hread, hs, h0, resolvedHeap, refreshedData]

/-- Claim C9: `getContainerInfo` errors exactly on unknown names (with the
distinct not-found kind and the state untouched) or on a failing
synchronous refresh (error propagated, no snapshot); it returns a snapshot
exactly when the lookup and both refreshes succeed. -/
theorem spec_C9_query_error_contract :
    (∀ (specRes : Option ContainerSpec) (subcRes : Option (List String))
       (m : ManagerState) (nm : String),
      lookupC m.containers nm = none →
        GetContainerInfo specRes subcRes m nm = .error m .notFound) ∧
    (∀ (specRes : Option ContainerSpec) (subcRes : Option (List String))
       (m : ManagerState) (nm : String) (cont : ContainerData),
      lookupC m.containers nm = some cont →
      specRes = none ∨ subcRes = none →
        (GetContainerInfo specRes subcRes m nm).errKind = some .refreshFailed ∧
        (GetContainerInfo specRes subcRes m nm).hasSnapshot = false) ∧
    (∀ (s : ContainerSpec) (subs : List String)
       (m : ManagerState) (nm : String) (cont : ContainerData),
      lookupC m.containers nm = some cont →
        (GetContainerInfo (some s) (some subs) m nm).errKind = none ∧
        (GetContainerInfo (some s) (some subs) m nm).hasSnapshot = true) := by
  refine ⟨?_, ?_, ?_⟩
  · intro specRes subcRes m nm hlook
    simp [GetContainerInfo, hlook]
  · intro specRes subcRes m nm cont hlook hfail
    rcases hfail with hs | hc
    · subst hs
      simp [GetContainerInfo, hlook, GetInfo, updateSpec, QueryResult.errKind,
        QueryResult.hasSnapshot]
    · subst hc
      cases specRes with
      | none =>
        simp [GetContainerInfo, hlook, GetInfo, updateSpec, QueryResult.errKind,
          QueryResult.hasSnapshot]
      | some s =>
        simp [GetContainerInfo, hlook, GetInfo, updateSpec, updateSubcontainers,
          specAlloc, QueryResult.errKind, QueryResult.hasSnapshot]
  · intro s subs m nm cont hlook
    rw [GetContainerInfo_ok s subs m nm cont hlook]
    exact ⟨rfl, rfl⟩

/-- Witness for C9: the three cases at concrete inputs — unknown name
`/missing`, failing spec refresh on `/a`, and a fully successful query on
`/a`. -/
theorem spec_C9_witness :
    GetContainerInfo (some limit5Spec) (some []) witnessManager "/missing" =
      .error witnessManager .notFound ∧
    ((GetContainerInfo none (some []) witnessManager "/a").errKind =
        some .refreshFailed ∧
     (GetContainerInfo none (some []) witnessManager "/a").hasSnapshot = false) ∧
    ((GetContainerInfo (some limit5Spec) (some []) witnessManager "/a").errKind = none ∧
     (GetContainerInfo (some limit5Spec) (some []) witnessManager "/a").hasSnapshot = true) :=
  ⟨spec_C9_query_error_contract.1 (some limit5Spec) (some []) witnessManager "/missing" rfl,
   spec_C9_query_error_contract.2.1 none (some []) witnessManager "/a"
     (NewContainerData "/a") rfl (Or.inl rfl),
   spec_C9_query_error_contract.2.2 limit5Spec [] witnessManager "/a"
     (NewContainerData "/a") rfl⟩

/-- Claim C2: on a tracked container whose refreshed spec carries a memory
section, the snapshot's effective memory limit is the machine capacity
when the stored limit is the sentinel 0, and the stored limit unchanged
otherwise. -/
theorem spec_C2_default_memory_limit (s : ContainerSpec) (mem : MemorySpec)
    (subs : List String) (m : ManagerState) (nm : String) (cont : ContainerData)
    (hlook : lookupC m.containers nm = some cont) (hmem : s.memory = some mem) :
    retMemoryLimit (GetContainerInfo (some s) (some subs) m nm) =
      some (if mem.limit = 0 then m.machineMemoryCapacity else mem.limit) := by
  rw [GetContainerInfo_ok s subs m nm cont hlook]
  have hlt : m.specHeap.length < (m.specHeap ++ [s]).length := by simp
  by_cases h0 : mem.limit = 0
  · have hread : specRead
        (specWrite (m.specHeap ++ [s]) m.specHeap.length
          { s with memory := some { mem with limit := m.machineMemoryCapacity } })
        m.specHeap.length =
        some { s with memory := some { mem with limit := m.machineMemoryCapacity } } := by
      simpa [specRead, specWrite] using
        getElem?_set_of_lt (m.specHeap ++ [s]) m.specHeap.length
          { s with memory := some { mem with limit := m.machineMemoryCapacity } } hlt
    simp [retMemoryLimit, resolvedHeap, hmem, h0, hread]
  · have hread : specRead (m.specHeap ++ [s]) m.specHeap.length = some s := by
      simpa [specRead] using getElem?_append_length m.specHeap s
    simp [retMemoryLimit, resolvedHeap, hmem, h0, hread]

/-- Witness for C2 at concrete inputs: limit 0 resolves to the machine
capacity 2048; limit 5 is returned unchanged. -/
theorem spec_C2_witness :
    retMemoryLimit (GetContainerInfo (some limit0Spec) (some []) witnessManager "/a") =
      some 2048 ∧
    retMemoryLimit (GetContainerInfo (some limit5Spec) (some []) witnessManager "/a") =
      some 5 :=
  ⟨spec_C2_default_memory_limit limit0Spec { limit := 0 } [] witnessManager "/a"
     (NewContainerData "/a") rfl rfl,
   spec_C2_default_memory_limit limit5Spec { limit := 5 } [] witnessManager "/a"
     (NewContainerData "/a") rfl rfl⟩

/-- Claim C1 evaluated at the failing input (one tracked container `/a`,
machine capacity 1024, refreshed spec with memory limit 0): the query
succeeds, but the default-resolution rule has written limit 1024 through
the shared spec pointer — the collector's stored spec, which immediately
after the refreshes held limit 0 (`limit0Spec`), now holds limit 1024 —
and the returned snapshot's spec pointer is the very address the stored
state points to, so the snapshot aliases internal mutable state. -/
theorem spec_C1_substitution_mutates_stored :
    c1Query =
      .ok { containers := [("/a", { name := "/a", subcontainers := [], spec := some 0,
                                    stats := [], statsSummary := none })],
            machineMemoryCapacity := 1024,
            specHeap := [{ memory := some { limit := 1024 } }] }
          { name := "/a", subcontainers := [], spec := some 0,
            statsSummary := none, stats := [] } ∧
    (c1Query.okState.map (fun m' => storedSpecValue m' "/a")) =
      some (some { memory := some { limit := 1024 } }) ∧
    limit0Spec = { memory := some { limit := 0 } } ∧
    (c1Query.okRet.map RetContainerInfo.spec) =
      (c1Query.okState.map (fun m' => storedSpecAddr m' "/a")) := by
  refine ⟨by decide, by decide, rfl, by decide⟩

end Lmctfy

namespace Lmctfy

theorem lookupC_eq_none_iff (l : List (String × ContainerData)) (k : String) :
    lookupC l k = none ↔ k ∉ keysC l := by
  induction l with
  | nil => simp [lookupC, keysC]
  | cons p t ih =>
    obtain ⟨k', v⟩ := p
    by_cases hk : k' = k
    · subst hk
      simp [lookupC, keysC]
    · have hk' : ¬ (k = k') := fun h => hk h.symm
      simp [lookupC, keysC, hk, hk', ih]

theorem lookupC_mem_keys (l : List (String × ContainerData)) (k : String)
    (h : k ∈ keysC l) : ∃ v, lookupC l k = some v := by
  cases hcase : lookupC l k with
  | none => exact absurd h ((lookupC_eq_none_iff l k).mp hcase)
  | some v => exact ⟨v, rfl⟩

theorem mem_keys_insertC (l : List (String × ContainerData)) (k x : String)
    (v : ContainerData) :
    x ∈ keysC (insertC l k v) ↔ x = k ∨ x ∈ keysC l := by
  induction l with
  | nil => simp [insertC, keysC]
  | cons p t ih =>
    obtain ⟨k', v'⟩ := p
    by_cases hk : k' = k
    · subst hk
      simp only [insertC, if_pos rfl, keysC, List.mem_cons] <;> tauto
    · simp only [insertC, hk, if_false, keysC, List.mem_cons, ih] <;> tauto

theorem nodup_keys_insertC (l : List (String × ContainerData)) (k : String)
    (v : ContainerData) (h : (keysC l).Nodup) :
    (keysC (insertC l k v)).Nodup := by
  induction l with
  | nil => simp [insertC, keysC]
  | cons p t ih =>
    obtain ⟨k', v'⟩ := p
    rw [keysC, List.nodup_cons] at h
    obtain ⟨hnotin, ht⟩ := h
    by_cases hk : k' = k
    · subst hk
      rw [insertC, if_pos rfl, keysC, List.nodup_cons]
      exact ⟨hnotin, ht⟩
    · rw [insertC, if_neg hk, keysC, List.nodup_cons]
      refine ⟨?_, ih ht⟩
      intro hmem
      rcases (mem_keys_insertC t k k' v).mp hmem with h1 | h2
      · exact hk h1
      · exact hnotin h2

theorem mem_keys_eraseC (l : List (String × ContainerData)) (k x : String) :
    x ∈ keysC (eraseC l k) ↔ x ∈ keysC l ∧ x ≠ k := by
  induction l with
  | nil => simp [eraseC, keysC]
  | cons p t ih =>
    obtain ⟨k', v'⟩ := p
    by_cases hk : k' = k
    · subst hk
      rw [eraseC, if_pos rfl, ih, keysC, List.mem_cons]
      constructor
      · rintro ⟨hm, hne⟩
        exact ⟨Or.inr hm, hne⟩
      · rintro ⟨rfl | hm, hne⟩
        · exact absurd rfl hne
        · exact ⟨hm, hne⟩
    · rw [eraseC, if_neg hk, keysC, keysC, List.mem_cons, List.mem_cons, ih]
      constructor
      · rintro (rfl | ⟨hm, hne⟩)
        · exact ⟨Or.inl rfl, hk⟩
        · exact ⟨Or.inr hm, hne⟩
      · rintro ⟨rfl | hm, hne⟩
        · exact Or.inl rfl
        · exact Or.inr ⟨hm, hne⟩

theorem nodup_keys_eraseC (l : List (String × ContainerData)) (k : String)
    (h : (keysC l).Nodup) : (keysC (eraseC l k)).Nodup := by
  induction l with
  | nil => simp [eraseC, keysC]
  | cons p t ih =>
    obtain ⟨k', v'⟩ := p
    rw [keysC, List.nodup_cons] at h
    obtain ⟨hnotin, ht⟩ := h
    by_cases hk : k' = k
    · subst hk
      rw [eraseC, if_pos rfl]
      exact ih ht
    · rw [eraseC, if_neg hk, keysC, List.nodup_cons]
      refine ⟨?_, ih ht⟩
      intro hmem
      exact hnotin ((mem_keys_eraseC t k k').mp hmem).1

/-- Claim C6: with the root tracked and a successful recursive listing
`live0`, the diff returns `added` and `removed` with
`added = (live0 ++ [root]) \\ tracked` and
`removed = tracked \\ (live0 ++ [root])` as sets. -/
theorem spec_C6_diff_correctness (live0 : List String) (m : ManagerState)
    (hroot : "/" ∈ keysC m.containers) :
    ∃ added removed, getContainersDiff (some live0) m = .ok (added, removed) ∧
      (∀ x, x ∈ added ↔ x ∈ live0 ++ ["/"] ∧ x ∉ keysC m.containers) ∧
      (∀ x, x ∈ removed ↔ x ∈ keysC m.containers ∧ x ∉ live0 ++ ["/"]) := by
  obtain ⟨v, hv⟩ := lookupC_mem_keys m.containers "/" hroot
  refine ⟨(live0 ++ ["/"]).filter (fun n => (lookupC m.containers n).isNone),
          (keysC m.containers).filter (fun n => decide (¬ n ∈ live0 ++ ["/"])),
          by simp [getContainersDiff, hv], ?_, ?_⟩
  · intro x
    simp only [List.mem_filter, Option.isNone_iff_eq_none, lookupC_eq_none_iff,
      List.mem_append, List.mem_singleton]
  · intro x
    simp [List.mem_filter]

/-- Witness for C6: tracked set `{/, /b}`, live listing `[/a]` — the diff
adds `/a` and removes `/b`. -/
theorem spec_C6_witness :
    ∃ added removed, getContainersDiff (some ["/a"]) diffManager = .ok (added, removed) ∧
      (∀ x, x ∈ added ↔ x ∈ ["/a"] ++ ["/"] ∧ x ∉ keysC diffManager.containers) ∧
      (∀ x, x ∈ removed ↔ x ∈ keysC diffManager.containers ∧ x ∉ ["/a"] ++ ["/"]) :=
  spec_C6_diff_correctness ["/a"] diffManager (by decide)

end Lmctfy

namespace Lmctfy

theorem createContainer_ok (histMax : Nat) (o : CreateOracle) (m : ManagerState)
    (name : String) (h : createOkB histMax o = true) :
    createContainer histMax o m name =
      .ok { m with containers := insertC m.containers name (tickedNew histMax o name) } := by
  rcases o with ⟨hok, ts, sum, time⟩
  cases ts with
  | err =>
    simp only [createOkB, Bool.and_eq_true] at h
    simp [createContainer, h.1, tickedNew, updateStats]
  | absent =>
    simp only [createOkB, Bool.and_eq_true] at h
    simp [createContainer, h.1, tickedNew, updateStats]
  | sample d =>
    cases sum with
    | err =>
      simp only [createOkB, Bool.and_eq_true] at h
      simp [createContainer, h.1, tickedNew, updateStats]
    | ok s =>
      simp only [createOkB, Bool.and_eq_true, decide_eq_true_eq] at h
      have hno : ¬ histMax ≤ 0 := by omega
      simp [createContainer, h.1, tickedNew, updateStats, NewContainerData, hno]

theorem createAll_ok (histMax : Nat) (co : String → CreateOracle) :
    ∀ (names : List String) (m : ManagerState),
    (∀ n ∈ names, createOkB histMax (co n) = true) →
    ∃ m', createAll histMax co names m = .ok m' ∧
      (∀ x, x ∈ keysC m'.containers ↔ x ∈ names ∨ x ∈ keysC m.containers) ∧
      ((keysC m.containers).Nodup → (keysC m'.containers).Nodup) := by
  intro names
  induction names with
  | nil =>
    intro m _
    exact ⟨m, rfl, fun x => by simp, fun hn => hn⟩
  | cons n rest ih =>
    intro m h
    have hstep := createContainer_ok histMax (co n) m n (h n (by simp))
    obtain ⟨m', hrun, hkeys, hnd⟩ :=
      ih { m with containers := insertC m.containers n (tickedNew histMax (co n) n) }
        (fun x hx => h x (by simp [hx]))
    refine ⟨m', ?_, ?_, ?_⟩
    · simp [createAll, hstep, hrun]
    · intro x
      rw [hkeys x]
      simp only [List.mem_cons]
      rw [mem_keys_insertC]
      tauto
    · intro hm
      exact hnd (nodup_keys_insertC _ _ _ hm)

theorem destroyAll_ok :
    ∀ (names : List String) (m : ManagerState),
    (∀ n ∈ names, n ∈ keysC m.containers) → names.Nodup →
    ∃ m', destroyAll names m = .ok m' ∧
      (∀ x, x ∈ keysC m'.containers ↔ x ∈ keysC m.containers ∧ x ∉ names) ∧
      ((keysC m.containers).Nodup → (keysC m'.containers).Nodup) := by
  intro names
  induction names with
  | nil =>
    intro m _ _
    exact ⟨m, rfl, fun x => by simp, fun hn => hn⟩
  | cons n rest ih =>
    intro m hmem hnd
    obtain ⟨v, hv⟩ := lookupC_mem_keys m.containers n (hmem n (by simp))
    have hstep : destroyContainer m n =
        .ok { m with containers := eraseC m.containers n } := by
      simp [destroyContainer, hv]
    rw [List.nodup_cons] at hnd
    obtain ⟨hnin, hndr⟩ := hnd
    have hmem' : ∀ x ∈ rest, x ∈ keysC (eraseC m.containers n) := by
      intro x hx
      exact (mem_keys_eraseC m.containers n x).mpr
        ⟨hmem x (by simp [hx]), fun he => hnin (he ▸ hx)⟩
    obtain ⟨m', hrun, hkeys, hnd'⟩ :=
      ih { m with containers := eraseC m.containers n } hmem' hndr
    refine ⟨m', ?_, ?_, ?_⟩
    · simp [destroyAll, hstep, hrun]
    · intro x
      rw [hkeys x]
      simp only [List.mem_cons]
      rw [mem_keys_eraseC]
      tauto
    · intro hm
      exact hnd' (nodup_keys_eraseC _ _ hm)

theorem detectContainers_eq (histMax : Nat) (listRes : Option (List String))
    (co : String → CreateOracle) (m : ManagerState) (added removed : List String)
    (hdiff : getContainersDiff listRes m = .ok (added, removed)) :
    detectContainers histMax listRes co m =
      match createAll histMax co added m with
      | .panicked => .panicked
      | .error m' => .error m'
      | .ok m' => destroyAll removed m' := by
  simp only [detectContainers, hdiff]

/-- Claim C7: with the root tracked, unique tracked names, a successful
listing and every creation succeeding, one reconciliation pass succeeds
and leaves the tracked name set equal to the live set (listing plus root);
the diff recomputed on the result is `([], [])`, and a second pass (under
any oracle) changes nothing. -/
theorem spec_C7_reconcile_idempotent (histMax : Nat) (live0 : List String)
    (co : String → CreateOracle) (m : ManagerState)
    (hroot : "/" ∈ keysC m.containers)
    (hnd : (keysC m.containers).Nodup)
    (hco : ∀ n ∈ (live0 ++ ["/"]).filter (fun n => (lookupC m.containers n).isNone),
      createOkB histMax (co n) = true) :
    ∃ m', detectContainers histMax (some live0) co m = .ok m' ∧
      (∀ x, x ∈ keysC m'.containers ↔ x ∈ live0 ++ ["/"]) ∧
      getContainersDiff (some live0) m' = .ok ([], []) ∧
      (∀ co2, detectContainers histMax (some live0) co2 m' = .ok m') := by
  obtain ⟨v, hv⟩ := lookupC_mem_keys m.containers "/" hroot
  have hdiff : getContainersDiff (some live0) m =
      .ok ((live0 ++ ["/"]).filter (fun n => (lookupC m.containers n).isNone),
           (keysC m.containers).filter (fun n => decide (¬ n ∈ live0 ++ ["/"]))) := by
    simp [getContainersDiff, hv]
  obtain ⟨m1, hrun1, hkeys1, hnd1⟩ :=
    createAll_ok histMax co
      ((live0 ++ ["/"]).filter (fun n => (lookupC m.containers n).isNone)) m
      hco
  have hsub : ∀ n ∈ (keysC m.containers).filter (fun n => decide (¬ n ∈ live0 ++ ["/"])),
      n ∈ keysC m1.containers := by
    intro n hn
    rw [List.mem_filter] at hn
    exact (hkeys1 n).mpr (Or.inr hn.1)
  have hndrem : ((keysC m.containers).filter
      (fun n => decide (¬ n ∈ live0 ++ ["/"]))).Nodup :=
    hnd.filter _
  obtain ⟨m2, hrun2, hkeys2, hnd2⟩ := destroyAll_ok _ m1 hsub hndrem
  have hkeysfinal : ∀ x, x ∈ keysC m2.containers ↔ x ∈ live0 ++ ["/"] := by
    intro x
    rw [hkeys2 x, hkeys1 x]
    simp only [List.mem_filter, Option.isNone_iff_eq_none, lookupC_eq_none_iff,
      decide_eq_true_eq]
    by_cases hxk : x ∈ keysC m.containers <;> by_cases hxl : x ∈ live0 ++ ["/"] <;> tauto
  obtain ⟨v2, hv2⟩ := lookupC_mem_keys m2.containers "/"
    ((hkeysfinal "/").mpr (by simp))
  have hadd2 : (live0 ++ ["/"]).filter (fun n => (lookupC m2.containers n).isNone) = [] := by
    rw [List.filter_eq_nil_iff]
    intro a ha
    obtain ⟨w, hw⟩ := lookupC_mem_keys m2.containers a ((hkeysfinal a).mpr ha)
    simp [hw]
  have hrem2 : (keysC m2.containers).filter (fun n => decide (¬ n ∈ live0 ++ ["/"])) = [] := by
    rw [List.filter_eq_nil_iff]
    intro a ha
    simp [(hkeysfinal a).mp ha]
  have hdiff2 : getContainersDiff (some live0) m2 = .ok ([], []) := by
    simp only [getContainersDiff, hv2]
    rw [hadd2, hrem2]
  refine ⟨m2, ?_, hkeysfinal, hdiff2, ?_⟩
  · rw [detectContainers_eq histMax (some live0) co m _ _ hdiff, hrun1]
    exact hrun2
  · intro co2
    rw [detectContainers_eq histMax (some live0) co2 m2 [] [] hdiff2]
    rfl

/-- Witness for C7: root-only manager, live listing `[/a]`, all-succeed
oracle, capacity 3 — the pass tracks exactly `/a` and `/`, and a repeat
pass is a no-op. -/
theorem spec_C7_witness :
    ∃ m', detectContainers 3 (some ["/a"]) okOracle rootOnlyManager = .ok m' ∧
      (∀ x, x ∈ keysC m'.containers ↔ x ∈ ["/a"] ++ ["/"]) ∧
      getContainersDiff (some ["/a"]) m' = .ok ([], []) ∧
      (∀ co2, detectContainers 3 (some ["/a"]) co2 m' = .ok m') :=
  spec_C7_reconcile_idempotent 3 ["/a"] okOracle rootOnlyManager
    (by decide) (by decide) (fun n _ => rfl)

theorem createAll_append (histMax : Nat) (co : String → CreateOracle)
    (xs ys : List String) :
    ∀ m, createAll histMax co (xs ++ ys) m =
      match createAll histMax co xs m with
      | .panicked => .panicked
      | .error m' => .error m'
      | .ok m' => createAll histMax co ys m' := by
  induction xs with
  | nil => intro m; rfl
  | cons n rest ih =>
    intro m
    simp only [List.cons_append, createAll]
    cases createContainer histMax (co n) m n with
    | panicked => rfl
    | error m' => rfl
    | ok m' => exact ih m'

theorem destroyAll_append (xs ys : List String) :
    ∀ m, destroyAll (xs ++ ys) m =
      match destroyAll xs m with
      | .panicked => .panicked
      | .error m' => .error m'
      | .ok m' => destroyAll ys m' := by
  induction xs with
  | nil => intro m; rfl
  | cons n rest ih =>
    intro m
    simp only [List.cons_append, destroyAll]
    cases destroyContainer m n with
    | panicked => rfl
    | error m' => rfl
    | ok m' => exact ih m'

/-- Claim C8: a reconciliation pass is not atomic: if the diff succeeds and
the pass fails at some creation (handler construction fails) or at some
destruction (name unexpectedly absent), every earlier creation and
destruction of the pass remains applied — the error carries exactly the
state reached so far — no later operation of the pass is attempted, and
the error is returned to the caller. -/
theorem spec_C8_nonatomic_pass :
    (∀ (histMax : Nat) (listRes : Option (List String)) (co : String → CreateOracle)
       (m : ManagerState) (pre : List String) (bad : String) (post removed : List String)
       (m1 : ManagerState),
      getContainersDiff listRes m = .ok (pre ++ bad :: post, removed) →
      createAll histMax co pre m = .ok m1 →
      (co bad).handlerOk = false →
      detectContainers histMax listRes co m = .error m1) ∧
    (∀ (histMax : Nat) (listRes : Option (List String)) (co : String → CreateOracle)
       (m : ManagerState) (added pre : List String) (bad : String) (post : List String)
       (m1 m2 : ManagerState),
      getContainersDiff listRes m = .ok (added, pre ++ bad :: post) →
      createAll histMax co added m = .ok m1 →
      destroyAll pre m1 = .ok m2 →
      lookupC m2.containers bad = none →
      detectContainers histMax listRes co m = .error m2) := by
  constructor
  · intro histMax listRes co m pre bad post removed m1 hdiff hpre hbad
    have hfail : createContainer histMax (co bad) m1 bad = .error m1 := by
      simp [createContainer, hbad]
    have hc : createAll histMax co (pre ++ bad :: post) m = .error m1 := by
      rw [createAll_append]
      simp [hpre, createAll, hfail]
    simp [detectContainers, hdiff, hc]
  · intro histMax listRes co m added pre bad post m1 m2 hdiff hadded hpre hlook
    have hfail : destroyContainer m2 bad = .error m2 := by
      simp [destroyContainer, hlook]
    have hd : destroyAll (pre ++ bad :: post) m1 = .error m2 := by
      rw [destroyAll_append]
      simp [hpre, destroyAll, hfail]
    simp [detectContainers, hdiff, hadded, hd]

/-- Witness for C8: a failing creation of `/bad` aborts the pass with the
map untouched beyond earlier steps, and — on a duplicated-key state — a
failing destruction of `/x` aborts the pass keeping the first destroy
applied. -/
theorem spec_C8_witness :
    detectContainers 3 (some ["/bad"]) (failOracleFor "/bad") rootOnlyManager =
      .error rootOnlyManager ∧
    detectContainers 3 (some []) okOracle dupKeyManager = .error erasedDupManager :=
  ⟨spec_C8_nonatomic_pass.1 3 (some ["/bad"]) (failOracleFor "/bad") rootOnlyManager
      [] "/bad" [] [] rootOnlyManager rfl rfl (by decide),
   spec_C8_nonatomic_pass.2 3 (some []) okOracle dupKeyManager
      [] ["/x"] "/x" [] dupKeyManager erasedDupManager rfl rfl rfl (by decide)⟩

end Lmctfy
